import Mathlib

/-!
Shallow embedding of the intent-application engine of the voice-planning
backend (`backend/src/lib/plan.ts`, `backend/src/types.ts`, and the unnamed
revision of `lib/plan.ts`), together with proofs about it.

Modelling conventions:
* ISO `YYYY-MM-DD` date strings are represented by their parsed components
  (`Date` below).  `date-fns parseISO` succeeds exactly on well-formed
  calendar dates, which is the `Date.valid` predicate; every malformed date
  string is represented by an invalid component triple.
* `date-fns addDays` / JS `Date` day arithmetic is proleptic-Gregorian
  day arithmetic; it is embedded via day-number conversion (`toRata`,
  `ofRata`).  The runtime is assumed DST-free (UTC), so day differences of
  date-only values are exact whole numbers.
* A thrown JS exception is an `Except.error` carrying the exception
  message; `formatISO` on an invalid date throws `"Invalid time value"`.
* `Math.random`-based id generation is modelled by passing the drawn
  suffix as an explicit `freshSuffix` argument.
* The in-place assignment `plan.tasks = nextTasks` performed by
  `src/backend/src/lib/plan.ts` is modelled by returning the post-call
  plan alongside the result; the revision in `src/unnamed/part_000` omits
  that assignment and is embedded separately as `applyIntentP0`.
-/

namespace Flowka

/-- The component triple of an ISO `YYYY-MM-DD` date string. -/
structure Date where
  year : Int
  month : Nat
  day : Nat
deriving DecidableEq, Repr

/-- Gregorian leap-year rule, as implemented by JS `Date`. -/
def isLeap (y : Int) : Prop := y % 4 = 0 ∧ (y % 100 ≠ 0 ∨ y % 400 = 0)

instance (y : Int) : Decidable (isLeap y) := by unfold isLeap; infer_instance

/-- Number of days in a month of the Gregorian calendar (0 for invalid months). -/
def daysInMonth (y : Int) (m : Nat) : Nat :=
  match m with
  | 1 => 31 | 2 => if isLeap y then 29 else 28 | 3 => 31 | 4 => 30
  | 5 => 31 | 6 => 30 | 7 => 31 | 8 => 31 | 9 => 30 | 10 => 31
  | 11 => 30 | 12 => 31 | _ => 0

/-- A date is valid iff `parseISO` accepts the corresponding string. -/
def Date.valid (x : Date) : Prop :=
  1 ≤ x.month ∧ x.month ≤ 12 ∧ 1 ≤ x.day ∧ x.day ≤ daysInMonth x.year x.month

instance (x : Date) : Decidable x.valid := by unfold Date.valid; infer_instance

/-- Day-of-(March-based)-year of day `dd` of March-based month `mp`
(`mp = 0` is March, `mp = 11` is February). -/
def mpDdToDoy (mp dd : Nat) : Nat := (153 * mp + 2) / 5 + dd - 1

/-- Inverse of `mpDdToDoy`: March-based month and day from day-of-year. -/
def doyToMpDd (doy : Nat) : Nat × Nat :=
  let mp := (5 * doy + 2) / 153
  (mp, doy - (153 * mp + 2) / 5 + 1)

/-- Day-of-era from year-of-era and day-of-year (era = 400 March-based years). -/
def yoeDoyToDoe (yoe doy : Nat) : Nat := 365 * yoe + yoe / 4 - yoe / 100 + doy

/-- Inverse of `yoeDoyToDoe`, extracted layer by layer
(century, quadrennium, year). -/
def doeToYoeDoy (doe : Nat) : Nat × Nat :=
  let c := min 3 (doe / 36524)
  let doc := doe - 36524 * c
  let q := doc / 1461
  let doq := doc - 1461 * q
  let y4 := min 3 (doq / 365)
  (100 * c + 4 * q + y4, doq - 365 * y4)

/-- Day number of a date (days since 1970-01-01, proleptic Gregorian);
the day-number semantics of JS `Date` / `date-fns` day arithmetic. -/
def toRata (x : Date) : Int :=
  let y := x.year - (if x.month ≤ 2 then 1 else 0)
  let era := y / 400
  let yoe := (y - era * 400).toNat
  era * 146097 + (yoeDoyToDoe yoe (mpDdToDoy ((x.month + 9) % 12) x.day) : Int) - 719468

/-- Date of a day number (inverse of `toRata`). -/
def ofRata (n : Int) : Date :=
  let z := n + 719468
  let era := z / 146097
  let doe := (z % 146097).toNat
  let yd := doeToYoeDoy doe
  let md := doyToMpDd yd.2
  let mm := if md.1 < 10 then md.1 + 3 else md.1 - 9
  ⟨era * 400 + yd.1 + (if mm ≤ 2 then 1 else 0), mm, md.2⟩

/-- `date-fns addDays` on a valid date: shift by `delta` calendar days. -/
def addDays (x : Date) (delta : Int) : Date := ofRata (toRata x + delta)

/-- The next calendar day (transparent table-based successor). -/
def nextDay (x : Date) : Date :=
  if x.day < daysInMonth x.year x.month then ⟨x.year, x.month, x.day + 1⟩
  else if x.month < 12 then ⟨x.year, x.month + 1, 1⟩
  else ⟨x.year + 1, 1, 1⟩

/-- ASCII lower-casing of one character, as JS `toLowerCase` acts on ASCII. -/
def jsLowerChar (c : Char) : Char :=
  if 65 ≤ c.toNat ∧ c.toNat ≤ 90 then Char.ofNat (c.toNat + 32) else c

/-- JS `String.prototype.toLowerCase` (ASCII fragment). -/
def jsToLower (s : String) : String := ⟨s.data.map jsLowerChar⟩

/-- Contiguous-sublist test on character lists. -/
def isInfixL (needle : List Char) : List Char → Bool
  | [] => needle.isEmpty
  | c :: rest => needle.isPrefixOf (c :: rest) || isInfixL needle rest

/-- JS `String.prototype.includes`: `jsIncludes s sub` iff `sub` occurs
contiguously in `s` (the empty string occurs in every string). -/
def jsIncludes (s sub : String) : Bool := isInfixL sub.data s.data

/-- `Task` of `backend/src/types.ts`; the source field `end` is `end_` here.
Date strings are represented by their parsed components (see module header). -/
structure Task where
  id : String
  name : String
  start : Date
  end_ : Date
  dependsOn : Option (List String)
  assignee : Option String
deriving DecidableEq, Repr

/-- `Plan` of `backend/src/types.ts`. -/
structure Plan where
  tasks : List Task
deriving DecidableEq, Repr

/-- `mode` field of a `shift_task_dates` intent. -/
inductive Mode where
  | forward
  | backward
deriving DecidableEq, Repr

/-- `Intent` of `backend/src/types.ts`: the five validated action shapes. -/
inductive Intent where
  | shift_task_dates (target : String) (delta_days : Int) (mode : Mode)
  | extend_task (target : String) (delta_days : Int)
  | create_task (name : String) (start end_ : Date)
      (dependsOn : Option (List String)) (assignee : Option String)
  | move_milestone (target : String) (to_date : Date)
  | shift_phase (target : String) (delta_days : Int)
deriving DecidableEq, Repr

/-- One change record of a `PlanDiff` (`backend/src/types.ts`). -/
inductive Change where
  | update (taskId : String) (before after : Task)
  | create (task : Task)
deriving DecidableEq, Repr

/-- `PlanDiff` of `backend/src/types.ts`. -/
structure PlanDiff where
  changes : List Change
deriving DecidableEq, Repr

/-- `shiftDates` of `lib/plan.ts`: `formatISO(addDays(parseISO(start), delta))`
for both dates; throws `"Invalid time value"` when a date does not parse. -/
def shiftDates (task : Task) (delta : Int) : Except String Task :=
  if task.start.valid ∧ task.end_.valid then
    .ok { task with start := addDays task.start delta, end_ := addDays task.end_ delta }
  else .error "Invalid time value"

/-- The local `findByName` of `applyIntent`:
`tasks.find(t => t.name.toLowerCase() === name.toLowerCase())`. -/
def findByName (tasks : List Task) (name : String) : Option Task :=
  tasks.find? (fun t => jsToLower t.name == jsToLower name)

/-- `durationDays` of the spec's Date Arithmetic Helper; in `lib/plan.ts` it is
the inline `(parseISO(t.end).getTime() - parseISO(t.start).getTime()) / 86400000`
of the `move_milestone` branch (exact whole days for date-only values). -/
def durationDays (t : Task) : Int := toRata t.end_ - toRata t.start

/-- The `for (const t of phaseTasks)` loop of the `shift_phase` branch:
shift every task, throwing at the first date that does not parse. -/
def shiftAll (delta : Int) : List Task → Except String (List Change)
  | [] => .ok []
  | t :: rest =>
    match shiftDates t delta with
    | .error e => .error e
    | .ok after =>
      match shiftAll delta rest with
      | .error e => .error e
      | .ok changes => .ok (Change.update t.id t after :: changes)

/-- The `switch (intent.action)` body of `applyIntent`: builds the change
list, or throws.  `freshSuffix` is the drawn `Math.random` suffix of the
`create_task` id. -/
def applyIntentChanges (freshSuffix : String) (tasks : List Task) :
    Intent → Except String (List Change)
  | .shift_task_dates target delta_days mode =>
    match findByName tasks target with
    | none => .error ("Task not found: " ++ target)
    | some t =>
      let delta := match mode with | .forward => delta_days | .backward => -delta_days
      match shiftDates t delta with
      | .error e => .error e
      | .ok after => .ok [Change.update t.id t after]
  | .extend_task target delta_days =>
    match findByName tasks target with
    | none => .error ("Task not found: " ++ target)
    | some t =>
      if t.end_.valid then .ok [Change.update t.id t { t with end_ := addDays t.end_ delta_days }]
      else .error "Invalid time value"
  | .create_task name start end_ dependsOn assignee =>
    .ok [Change.create ⟨"t_" ++ freshSuffix, name, start, end_, dependsOn, assignee⟩]
  | .move_milestone target to_date =>
    match findByName tasks target with
    | none => .error ("Milestone not found: " ++ target)
    | some t =>
      if t.start.valid ∧ t.end_.valid ∧ to_date.valid then
        .ok [Change.update t.id t
          { t with start := to_date, end_ := addDays to_date (max 0 (durationDays t)) }]
      else .error "Invalid time value"
  | .shift_phase target delta_days =>
    let lowered := jsToLower target
    let phaseTasks := tasks.filter (fun t => jsIncludes (jsToLower t.name) lowered)
    if phaseTasks.isEmpty then .error ("No tasks matched phase: " ++ target)
    else shiftAll delta_days phaseTasks

/-- Whether a change is an update record for task id `tid`
(`c.type === "update" && c.taskId === t.id`). -/
def isUpdateFor (tid : String) : Change → Bool
  | .update taskId _ _ => taskId == tid
  | .create _ => false

/-- The `nextTasks` computation of `applyIntent`: replace each task that has
an update record with the first such record's `after`, then append the
created tasks in diff order. -/
def projectTasks (tasks : List Task) (changes : List Change) : List Task :=
  (tasks.map fun t =>
    match changes.find? (isUpdateFor t.id) with
    | some (Change.update _ _ after) => after
    | _ => t)
  ++ changes.filterMap fun c =>
      match c with
      | Change.create task => some task
      | Change.update _ _ _ => none

/-- `applyIntent` of `src/backend/src/lib/plan.ts`.  The returned pair is
(result, the caller's plan after the call): on success that file assigns
`plan.tasks = nextTasks` before returning the diff; on a throw the
assignment is never reached. -/
def applyIntent (freshSuffix : String) (plan : Plan) (intent : Intent) :
    Except String PlanDiff × Plan :=
  match applyIntentChanges freshSuffix plan.tasks intent with
  | .error e => (.error e, plan)
  | .ok changes => (.ok ⟨changes⟩, ⟨projectTasks plan.tasks changes⟩)

/-- `applyIntent` of the revision in `src/unnamed/part_000`: it computes the
same change list (and discards its `nextTasks`), never assigning to
`plan.tasks`, so the caller's plan is unchanged in every case. -/
def applyIntentP0 (freshSuffix : String) (plan : Plan) (intent : Intent) :
    Except String PlanDiff × Plan :=
  match applyIntentChanges freshSuffix plan.tasks intent with
  | .error e => (.error e, plan)
  | .ok changes => (.ok ⟨changes⟩, plan)

instance {ε α : Type} [DecidableEq ε] [DecidableEq α] : DecidableEq (Except ε α) :=
  fun a b =>
    match a, b with
    | .error e, .error f =>
      if h : e = f then .isTrue (by rw [h]) else .isFalse (fun hh => h (by cases hh; rfl))
    | .ok x, .ok y =>
      if h : x = y then .isTrue (by rw [h]) else .isFalse (fun hh => h (by cases hh; rfl))
    | .error _, .ok _ => .isFalse (fun hh => Except.noConfusion hh)
    | .ok _, .error _ => .isFalse (fun hh => Except.noConfusion hh)

/-! ### Correctness of the day-number codec

`toRata`/`ofRata` implement the proleptic-Gregorian calendar: the two maps
are mutually inverse between day numbers and valid dates, and the
table-based successor `nextDay` corresponds to `+1` on day numbers. -/

/-- March-based month lengths (`mp = 11` is February). -/
def mpLen (leap : Bool) (mp : Nat) : Nat :=
  if mp = 11 then (if leap then 29 else 28)
  else (153 * (mp + 1) + 2) / 5 - (153 * mp + 2) / 5

set_option maxRecDepth 8000 in
theorem doyToMpDd_spec_aux : ∀ doy : Nat, doy < 366 →
    (doyToMpDd doy).1 ≤ 11 ∧ 1 ≤ (doyToMpDd doy).2 ∧
    (doyToMpDd doy).2 ≤ mpLen true (doyToMpDd doy).1 ∧
    mpDdToDoy (doyToMpDd doy).1 (doyToMpDd doy).2 = doy ∧
    ((doyToMpDd doy).1 = 11 → (doyToMpDd doy).2 = 29 → doy = 365) := by
  decide

theorem doyToMpDd_spec (doy mp dd : Nat) (h : doy < 366)
    (heq : doyToMpDd doy = (mp, dd)) :
    mp ≤ 11 ∧ 1 ≤ dd ∧ dd ≤ mpLen true mp ∧ mpDdToDoy mp dd = doy ∧
    (mp = 11 → dd = 29 → doy = 365) := by
  have h2 := doyToMpDd_spec_aux doy h
  rw [heq] at h2
  exact h2

set_option maxRecDepth 8000 in
theorem mpDdToDoy_spec : ∀ mp, mp < 12 → ∀ dd, 1 ≤ dd → dd ≤ mpLen true mp →
    mpDdToDoy mp dd < 366 ∧ doyToMpDd (mpDdToDoy mp dd) = (mp, dd) ∧
    (mpDdToDoy mp dd = 365 → mp = 11 ∧ dd = 29) := by
  decide

theorem cumDecomp (yoe c q y4 : Nat) (hc : c ≤ 3) (hq : q ≤ 24) (hy : y4 ≤ 3)
    (hyoe : yoe = 100 * c + 4 * q + y4) :
    365 * yoe + yoe / 4 - yoe / 100 = 36524 * c + 1461 * q + 365 * y4 := by
  subst hyoe
  have e1 : (100 * c + 4 * q + y4) / 4 = 25 * c + q := by omega
  have e2 : (100 * c + 4 * q + y4) / 100 = c := by omega
  rw [e1, e2]
  omega

theorem doeToYoeDoy_spec (doe yoe doy : Nat) (h : doe < 146097)
    (heq : doeToYoeDoy doe = (yoe, doy)) :
    yoe ≤ 399 ∧ doy ≤ 365 ∧ yoeDoyToDoe yoe doy = doe ∧
    (doy = 365 → (yoe % 4 = 3 ∧ yoe % 100 ≠ 99) ∨ yoe = 399) := by
  simp only [doeToYoeDoy, Prod.mk.injEq] at heq
  obtain ⟨c, hc⟩ : ∃ c, min 3 (doe / 36524) = c := ⟨_, rfl⟩
  rw [hc] at heq
  obtain ⟨q, hq⟩ : ∃ q, (doe - 36524 * c) / 1461 = q := ⟨_, rfl⟩
  rw [hq] at heq
  obtain ⟨y4, hy4⟩ : ∃ y4, min 3 ((doe - 36524 * c - 1461 * q) / 365) = y4 := ⟨_, rfl⟩
  rw [hy4] at heq
  obtain ⟨h1, h2⟩ := heq
  have hcb : c ≤ 3 := by omega
  have hqb : q ≤ 24 := by omega
  have hy4b : y4 ≤ 3 := by omega
  have hyoe : yoe = 100 * c + 4 * q + y4 := by omega
  have hcum := cumDecomp yoe c q y4 hcb hqb hy4b hyoe
  have hdoe : doe = 36524 * c + 1461 * q + 365 * y4 + doy := by omega
  have hedge : doy ≤ 365 ∧ (doy = 365 → y4 = 3 ∧ (q < 24 ∨ c = 3)) := by omega
  refine ⟨by omega, by omega, ?_, by omega⟩
  simp only [yoeDoyToDoe]
  omega

theorem yoeDoyToDoe_spec (yoe doy : Nat) (h1 : yoe ≤ 399)
    (h2 : doy ≤ 364 ∨ (doy = 365 ∧ ((yoe % 4 = 3 ∧ yoe % 100 ≠ 99) ∨ yoe = 399))) :
    yoeDoyToDoe yoe doy < 146097 ∧ doeToYoeDoy (yoeDoyToDoe yoe doy) = (yoe, doy) := by
  have hyoe : yoe = 100 * (yoe / 100) + 4 * (yoe % 100 / 4) + yoe % 100 % 4 := by omega
  have hcum := cumDecomp yoe (yoe / 100) (yoe % 100 / 4) (yoe % 100 % 4)
    (by omega) (by omega) (by omega) hyoe
  obtain ⟨c, q, y4, hcd, hqd, hy4d, hc, hq, hy4, hyoe2, hcum2⟩ :
      ∃ c q y4, yoe / 100 = c ∧ yoe % 100 / 4 = q ∧ yoe % 100 % 4 = y4 ∧
        c ≤ 3 ∧ q ≤ 24 ∧ y4 ≤ 3 ∧ yoe = 100 * c + 4 * q + y4 ∧
        365 * yoe + yoe / 4 - yoe / 100 = 36524 * c + 1461 * q + 365 * y4 :=
    ⟨yoe / 100, yoe % 100 / 4, yoe % 100 % 4, rfl, rfl, rfl,
      by omega, by omega, by omega, hyoe, hcum⟩
  have hedge : doy ≤ 364 ∨ (doy = 365 ∧ y4 = 3 ∧ (q ≠ 24 ∨ c = 3)) := by omega
  simp only [yoeDoyToDoe, doeToYoeDoy, Prod.mk.injEq]
  rw [hcum2]
  have e1 : min 3 ((36524 * c + 1461 * q + 365 * y4 + doy) / 36524) = c := by omega
  rw [e1]
  have e2 : (36524 * c + 1461 * q + 365 * y4 + doy - 36524 * c) / 1461 = q := by omega
  rw [e2]
  have e3 : min 3 ((36524 * c + 1461 * q + 365 * y4 + doy - 36524 * c - 1461 * q) / 365) = y4 := by
    omega
  rw [e3]
  omega


theorem Date.valid_mk (y : Int) (m d : Nat) :
    (Date.mk y m d).valid ↔ 1 ≤ m ∧ m ≤ 12 ∧ 1 ≤ d ∧ d ≤ daysInMonth y m := Iff.rfl

theorem monthToMp (M : Nat) (h1 : 1 ≤ M) (h2 : M ≤ 12) (y : Int) :
    (M + 9) % 12 ≤ 11 ∧
    (if (M + 9) % 12 < 10 then (M + 9) % 12 + 3 else (M + 9) % 12 - 9) = M ∧
    ((M ≤ 2) ↔ 10 ≤ (M + 9) % 12) ∧ ((M + 9) % 12 = 11 ↔ M = 2) ∧
    daysInMonth y M =
      (if (M + 9) % 12 = 11 then (if isLeap y then 29 else 28)
       else mpLen true ((M + 9) % 12)) := by
  interval_cases M <;> simp [daysInMonth, mpLen]

theorem toRata_ofRata (n : Int) : toRata (ofRata n) = n := by
  have hdoe : ((n + 719468) % 146097).toNat < 146097 := by omega
  obtain ⟨yoe, doy, hyd⟩ :
      ∃ a b, doeToYoeDoy ((n + 719468) % 146097).toNat = (a, b) := ⟨_, _, rfl⟩
  have hspec := doeToYoeDoy_spec _ _ _ hdoe hyd
  obtain ⟨mp, dd, hmd⟩ : ∃ a b, doyToMpDd doy = (a, b) := ⟨_, _, rfl⟩
  have hm := doyToMpDd_spec _ _ _ (by omega) hmd
  simp only [ofRata, hyd, hmd]
  obtain ⟨era, hera0⟩ : ∃ e, (n + 719468) / 146097 = e := ⟨_, rfl⟩
  rw [hera0]
  have hyoeb : yoe ≤ 399 := hspec.1
  by_cases hsplit : mp < 10
  · rw [if_pos hsplit]
    have hle : ¬(mp + 3 ≤ 2) := by omega
    rw [if_neg hle]
    simp only [toRata]
    rw [if_neg hle]
    have e1 : (era * 400 + (yoe : Int) + 0 - 0) / 400 = era := by omega
    rw [e1]
    have e2 : (era * 400 + (yoe : Int) + 0 - 0 - era * 400).toNat = yoe := by omega
    rw [e2]
    simp only [yoeDoyToDoe, mpDdToDoy] at hspec hm ⊢
    have hmp12 : (mp + 3 + 9) % 12 = mp := by omega
    rw [hmp12]
    omega
  · rw [if_neg hsplit]
    have hle : mp - 9 ≤ 2 := by omega
    rw [if_pos hle]
    simp only [toRata]
    rw [if_pos hle]
    have e1 : (era * 400 + (yoe : Int) + 1 - 1) / 400 = era := by omega
    rw [e1]
    have e2 : (era * 400 + (yoe : Int) + 1 - 1 - era * 400).toNat = yoe := by omega
    rw [e2]
    simp only [yoeDoyToDoe, mpDdToDoy] at hspec hm ⊢
    have hmp12 : (mp - 9 + 9) % 12 = mp := by omega
    rw [hmp12]
    omega

theorem ofRata_valid (n : Int) : (ofRata n).valid := by
  have hdoe : ((n + 719468) % 146097).toNat < 146097 := by omega
  obtain ⟨yoe, doy, hyd⟩ :
      ∃ a b, doeToYoeDoy ((n + 719468) % 146097).toNat = (a, b) := ⟨_, _, rfl⟩
  have hspec := doeToYoeDoy_spec _ _ _ hdoe hyd
  obtain ⟨mp, dd, hmd⟩ : ∃ a b, doyToMpDd doy = (a, b) := ⟨_, _, rfl⟩
  have hm := doyToMpDd_spec _ _ _ (by omega) hmd
  simp only [ofRata, hyd, hmd]
  obtain ⟨era, hera0⟩ : ∃ e, (n + 719468) / 146097 = e := ⟨_, rfl⟩
  rw [hera0]
  by_cases hsplit : mp < 10
  · rw [if_pos hsplit]
    have hle : ¬(mp + 3 ≤ 2) := by omega
    rw [if_neg hle]
    rw [Date.valid_mk]
    have hmonth := (monthToMp (mp + 3) (by omega) (by omega)
      (era * 400 + (yoe : Int) + 0)).2.2.2.2
    have hmp12 : (mp + 3 + 9) % 12 = mp := by omega
    rw [hmp12, if_neg (by omega : ¬mp = 11)] at hmonth
    refine ⟨by omega, by omega, by omega, ?_⟩
    rw [hmonth]
    omega
  · rw [if_neg hsplit]
    have hle : mp - 9 ≤ 2 := by omega
    rw [if_pos hle]
    rw [Date.valid_mk]
    have hmp1011 : mp = 10 ∨ mp = 11 := by omega
    rcases hmp1011 with hmp | hmp
    · subst hmp
      refine ⟨by omega, by omega, by omega, ?_⟩
      show dd ≤ daysInMonth _ (10 - 9)
      have h19 : (10 : Nat) - 9 = 1 := by omega
      rw [h19]
      simp only [daysInMonth]
      have hml : mpLen true 10 = 31 := by decide
      omega
    · subst hmp
      refine ⟨by omega, by omega, by omega, ?_⟩
      show dd ≤ daysInMonth (era * 400 + (yoe : Int) + 1) (11 - 9)
      have h29 : (11 : Nat) - 9 = 2 := by omega
      rw [h29]
      simp only [daysInMonth]
      by_cases hdd : dd = 29
      · have hdoy : doy = 365 := hm.2.2.2.2 rfl hdd
        have hleapc := hspec.2.2.2 hdoy
        have hleap : isLeap (era * 400 + (yoe : Int) + 1) := by
          unfold isLeap
          omega
        rw [if_pos hleap]
        omega
      · have hml : mpLen true 11 = 29 := by decide
        have hdd28 : dd ≤ 28 := by
          have := hm.2.2.1
          omega
        split <;> omega

theorem ofRata_toRata (x : Date) (h : x.valid) : ofRata (toRata x) = x := by
  obtain ⟨Y, M, D⟩ := x
  rw [Date.valid_mk] at h
  obtain ⟨h1, h2, h3, h4⟩ := h
  have hmm := monthToMp M h1 h2 Y
  obtain ⟨mp, hmp⟩ : ∃ mp, (M + 9) % 12 = mp := ⟨_, rfl⟩
  rw [hmp] at hmm
  obtain ⟨hmp11, hmpM, hM2iff, hmp11iff, hdim⟩ := hmm
  have hDmp : D ≤ mpLen true mp := by
    by_cases hmp11e : mp = 11
    · rw [if_pos hmp11e] at hdim
      rw [hmp11e]
      have hml : mpLen true 11 = 29 := by decide
      rw [hdim] at h4
      split at h4 <;> omega
    · rw [if_neg hmp11e] at hdim
      omega
  have hsp := mpDdToDoy_spec mp (by omega) D h3 hDmp
  simp only [toRata]
  rw [hmp]
  by_cases hM2 : M ≤ 2
  · rw [if_pos hM2]
    obtain ⟨era, hera⟩ : ∃ e, (Y - 1) / 400 = e := ⟨_, rfl⟩
    rw [hera]
    obtain ⟨yoe, hyoe⟩ : ∃ v, (Y - 1 - era * 400).toNat = v := ⟨_, rfl⟩
    rw [hyoe]
    have hyoeb : yoe ≤ 399 := by omega
    have hyoeY : (yoe : Int) = Y - 1 - era * 400 := by omega
    have hedge : mpDdToDoy mp D ≤ 364 ∨
        (mpDdToDoy mp D = 365 ∧ ((yoe % 4 = 3 ∧ yoe % 100 ≠ 99) ∨ yoe = 399)) := by
      by_cases hdoy : mpDdToDoy mp D = 365
      · right
        refine ⟨hdoy, ?_⟩
        obtain ⟨hmp11e, hD29⟩ := hsp.2.2 hdoy
        rw [if_pos hmp11e] at hdim
        have hleap : isLeap Y := by
          by_contra hno
          rw [if_neg hno] at hdim
          omega
        unfold isLeap at hleap
        omega
      · left
        have := hsp.1
        omega
    have hys := yoeDoyToDoe_spec yoe (mpDdToDoy mp D) hyoeb hedge
    simp only [ofRata]
    have e5 : era * 146097 + (yoeDoyToDoe yoe (mpDdToDoy mp D) : Int) - 719468 + 719468 =
        era * 146097 + (yoeDoyToDoe yoe (mpDdToDoy mp D) : Int) := by ring
    rw [e5]
    have e6 : (era * 146097 + (yoeDoyToDoe yoe (mpDdToDoy mp D) : Int)) % 146097 =
        (yoeDoyToDoe yoe (mpDdToDoy mp D) : Int) := by omega
    have e7 : (era * 146097 + (yoeDoyToDoe yoe (mpDdToDoy mp D) : Int)) / 146097 = era := by
      omega
    rw [e6, e7]
    have e8 : ((yoeDoyToDoe yoe (mpDdToDoy mp D) : Int)).toNat =
        yoeDoyToDoe yoe (mpDdToDoy mp D) := by omega
    rw [e8]
    rw [hys.2]
    simp only [hsp.2.1]
    rw [hmpM]
    rw [if_pos hM2]
    simp only [Date.mk.injEq]
    exact ⟨by omega, trivial, trivial⟩
  · rw [if_neg hM2]
    obtain ⟨era, hera⟩ : ∃ e, (Y - 0) / 400 = e := ⟨_, rfl⟩
    rw [hera]
    obtain ⟨yoe, hyoe⟩ : ∃ v, (Y - 0 - era * 400).toNat = v := ⟨_, rfl⟩
    rw [hyoe]
    have hyoeb : yoe ≤ 399 := by omega
    have hyoeY : (yoe : Int) = Y - era * 400 := by omega
    have hedge : mpDdToDoy mp D ≤ 364 ∨
        (mpDdToDoy mp D = 365 ∧ ((yoe % 4 = 3 ∧ yoe % 100 ≠ 99) ∨ yoe = 399)) := by
      left
      have h365 : mpDdToDoy mp D ≠ 365 := by
        intro hdoy
        obtain ⟨hmp11e, _⟩ := hsp.2.2 hdoy
        have hM2e : M = 2 := hmp11iff.mp hmp11e
        omega
      have := hsp.1
      omega
    have hys := yoeDoyToDoe_spec yoe (mpDdToDoy mp D) hyoeb hedge
    simp only [ofRata]
    have e5 : era * 146097 + (yoeDoyToDoe yoe (mpDdToDoy mp D) : Int) - 719468 + 719468 =
        era * 146097 + (yoeDoyToDoe yoe (mpDdToDoy mp D) : Int) := by ring
    rw [e5]
    have e6 : (era * 146097 + (yoeDoyToDoe yoe (mpDdToDoy mp D) : Int)) % 146097 =
        (yoeDoyToDoe yoe (mpDdToDoy mp D) : Int) := by omega
    have e7 : (era * 146097 + (yoeDoyToDoe yoe (mpDdToDoy mp D) : Int)) / 146097 = era := by
      omega
    rw [e6, e7]
    have e8 : ((yoeDoyToDoe yoe (mpDdToDoy mp D) : Int)).toNat =
        yoeDoyToDoe yoe (mpDdToDoy mp D) := by omega
    rw [e8]
    rw [hys.2]
    simp only [hsp.2.1]
    rw [hmpM]
    rw [if_neg hM2]
    simp only [Date.mk.injEq]
    exact ⟨by omega, trivial, trivial⟩


theorem daysInMonth_pos (y : Int) (m : Nat) (h1 : 1 ≤ m) (h2 : m ≤ 12) :
    1 ≤ daysInMonth y m := by
  interval_cases m <;> simp only [daysInMonth] <;> (try split) <;> omega

theorem nextDay_sameMonth (Y : Int) (M D : Nat) (h3 : 1 ≤ D) :
    toRata ⟨Y, M, D + 1⟩ = toRata ⟨Y, M, D⟩ + 1 := by
  simp only [toRata, yoeDoyToDoe, mpDdToDoy]
  by_cases hM2 : M ≤ 2
  · rw [if_pos hM2]
    omega
  · rw [if_neg hM2]
    omega

theorem nextDay_monthEnd (Y : Int) (M : Nat) (h1 : 1 ≤ M) (h6 : M < 12) (hM2 : M ≠ 2) :
    toRata ⟨Y, M + 1, 1⟩ = toRata ⟨Y, M, daysInMonth Y M⟩ + 1 := by
  interval_cases M <;>
    simp only [toRata, yoeDoyToDoe, mpDdToDoy, daysInMonth] <;>
    norm_num <;> omega

theorem nextDay_dec (Y : Int) : toRata ⟨Y + 1, 1, 1⟩ = toRata ⟨Y, 12, 31⟩ + 1 := by
  simp only [toRata, yoeDoyToDoe, mpDdToDoy]
  norm_num
  omega

theorem nextDay_febMarLeap (Y : Int) (hL : Y % 4 = 0 ∧ (Y % 100 ≠ 0 ∨ Y % 400 = 0)) :
    toRata ⟨Y, 3, 1⟩ = toRata ⟨Y, 2, 29⟩ + 1 := by
  simp only [toRata, yoeDoyToDoe, mpDdToDoy]
  norm_num
  omega

theorem nextDay_febMarNon (Y : Int) (hL : ¬(Y % 4 = 0 ∧ (Y % 100 ≠ 0 ∨ Y % 400 = 0))) :
    toRata ⟨Y, 3, 1⟩ = toRata ⟨Y, 2, 28⟩ + 1 := by
  simp only [toRata, yoeDoyToDoe, mpDdToDoy]
  norm_num
  omega

theorem toRata_nextDay (x : Date) (h : x.valid) :
    toRata (nextDay x) = toRata x + 1 ∧ (nextDay x).valid := by
  obtain ⟨Y, M, D⟩ := x
  rw [Date.valid_mk] at h
  obtain ⟨h1, h2, h3, h4⟩ := h
  simp only [nextDay]
  by_cases h5 : D < daysInMonth Y M
  · rw [if_pos h5]
    refine ⟨nextDay_sameMonth Y M D h3, ?_⟩
    rw [Date.valid_mk]
    exact ⟨h1, h2, by omega, by omega⟩
  · rw [if_neg h5]
    have hD : D = daysInMonth Y M := by omega
    by_cases h6 : M < 12
    · rw [if_pos h6]
      constructor
      · by_cases hM2e : M = 2
        · subst hM2e
          by_cases hL : isLeap Y
          · have hLa : Y % 4 = 0 ∧ (Y % 100 ≠ 0 ∨ Y % 400 = 0) := hL
            have hD29 : D = 29 := by
              simp only [daysInMonth, if_pos hL] at hD
              exact hD
            rw [hD29]
            exact nextDay_febMarLeap Y hLa
          · have hLa : ¬(Y % 4 = 0 ∧ (Y % 100 ≠ 0 ∨ Y % 400 = 0)) := hL
            have hD28 : D = 28 := by
              simp only [daysInMonth, if_neg hL] at hD
              exact hD
            rw [hD28]
            exact nextDay_febMarNon Y hLa
        · rw [hD]
          exact nextDay_monthEnd Y M h1 h6 hM2e
      · rw [Date.valid_mk]
        exact ⟨by omega, by omega, by omega, daysInMonth_pos Y (M + 1) (by omega) (by omega)⟩
    · rw [if_neg h6]
      have hM12 : M = 12 := by omega
      subst hM12
      have hD31 : D = 31 := by
        simp only [daysInMonth] at hD
        exact hD
      constructor
      · rw [hD31]
        exact nextDay_dec Y
      · rw [Date.valid_mk]
        refine ⟨by omega, by omega, by omega, ?_⟩
        simp only [daysInMonth]
        omega

theorem nextDay_ofRata (m : Int) : nextDay (ofRata m) = ofRata (m + 1) := by
  have h1 := ofRata_valid m
  have h2 := toRata_nextDay _ h1
  have h3 : toRata (nextDay (ofRata m)) = m + 1 := by rw [h2.1, toRata_ofRata]
  calc nextDay (ofRata m) = ofRata (toRata (nextDay (ofRata m))) :=
        (ofRata_toRata _ h2.2).symm
    _ = ofRata (m + 1) := by rw [h3]

theorem addDays_succ (x : Date) (k : Int) : addDays x (k + 1) = nextDay (addDays x k) := by
  simp only [addDays]
  rw [nextDay_ofRata]
  have h : toRata x + (k + 1) = toRata x + k + 1 := by ring
  rw [h]

theorem addDays_zero (x : Date) (h : x.valid) : addDays x 0 = x := by
  simp only [addDays, add_zero]
  exact ofRata_toRata x h

theorem addDays_valid (x : Date) (k : Int) : (addDays x k).valid := ofRata_valid _

theorem toRata_addDays (x : Date) (k : Int) : toRata (addDays x k) = toRata x + k := by
  simp only [addDays, toRata_ofRata]

theorem addDays_neg_cancel (x : Date) (h : x.valid) (k : Int) :
    addDays (addDays x k) (-k) = x := by
  simp only [addDays, toRata_ofRata]
  have h2 : toRata x + k + -k = toRata x := by ring
  rw [h2]
  exact ofRata_toRata x h


/-! ### Engine-level lemmas -/

theorem isInfixL_nil (l : List Char) : isInfixL [] l = true := by
  induction l with
  | nil => rfl
  | cons c rest ih => simp [isInfixL, ih, List.isPrefixOf]

theorem shiftAll_ok (delta : Int) (ts : List Task)
    (h : ∀ t ∈ ts, t.start.valid ∧ t.end_.valid) :
    shiftAll delta ts = .ok (ts.map fun t =>
      Change.update t.id t
        { t with start := addDays t.start delta, end_ := addDays t.end_ delta }) := by
  induction ts with
  | nil => rfl
  | cons t rest ih =>
    have ht := h t (by simp)
    have hrest := ih (fun a ha => h a (by simp [ha]))
    simp only [shiftAll, shiftDates, List.map_cons]
    rw [if_pos ht, hrest]

theorem shiftAll_ok_inv (delta : Int) (ts : List Task) (changes : List Change)
    (h : shiftAll delta ts = .ok changes) :
    changes = ts.map fun t => Change.update t.id t
      { t with start := addDays t.start delta, end_ := addDays t.end_ delta } := by
  induction ts generalizing changes with
  | nil =>
    simp only [shiftAll, Except.ok.injEq] at h
    simp [← h]
  | cons t rest ih =>
    simp only [shiftAll, shiftDates] at h
    by_cases hv : t.start.valid ∧ t.end_.valid
    · rw [if_pos hv] at h
      rcases hrec : shiftAll delta rest with e | cs
      · rw [hrec] at h
        exact absurd h (by simp)
      · rw [hrec] at h
        simp only [Except.ok.injEq] at h
        rw [← h, List.map_cons, ih cs hrec]
    · rw [if_neg hv] at h
      exact absurd h (by simp)

/-- C2: a failing `applyIntent` call is a plain thrown error: it returns no
diff and, in both source variants, it leaves the caller's plan exactly as it
was (the `plan.tasks = nextTasks` assignment of `src/backend/src/lib/plan.ts`
sits after every throwing statement, and the `part_000` variant never
assigns at all). -/
theorem applyIntent_error_frame (freshSuffix : String) (plan : Plan) (intent : Intent)
    (e : String) (h : (applyIntent freshSuffix plan intent).1 = .error e) :
    (applyIntent freshSuffix plan intent).2 = plan ∧
    (applyIntentP0 freshSuffix plan intent).2 = plan := by
  unfold applyIntent applyIntentP0 at *
  rcases hc : applyIntentChanges freshSuffix plan.tasks intent with f | cs <;> simp_all

/-- C2 witness: an unresolvable target raises `TargetNotFound` and leaves
the plan untouched. -/
theorem applyIntent_error_frame_witness :
    ((applyIntent "x" ⟨[⟨"t1", "Design", ⟨2024, 3, 10⟩, ⟨2024, 3, 20⟩, none, none⟩]⟩
        (.shift_task_dates "Nonexistent" 5 .forward)).1 =
      .error ("Task not found: " ++ "Nonexistent")) ∧
    (applyIntent "x" ⟨[⟨"t1", "Design", ⟨2024, 3, 10⟩, ⟨2024, 3, 20⟩, none, none⟩]⟩
        (.shift_task_dates "Nonexistent" 5 .forward)).2 =
      ⟨[⟨"t1", "Design", ⟨2024, 3, 10⟩, ⟨2024, 3, 20⟩, none, none⟩]⟩ ∧
    (applyIntentP0 "x" ⟨[⟨"t1", "Design", ⟨2024, 3, 10⟩, ⟨2024, 3, 20⟩, none, none⟩]⟩
        (.shift_task_dates "Nonexistent" 5 .forward)).2 =
      ⟨[⟨"t1", "Design", ⟨2024, 3, 10⟩, ⟨2024, 3, 20⟩, none, none⟩]⟩ := by
  refine ⟨by decide, ?_⟩
  have h := applyIntent_error_frame "x"
    ⟨[⟨"t1", "Design", ⟨2024, 3, 10⟩, ⟨2024, 3, 20⟩, none, none⟩]⟩
    (.shift_task_dates "Nonexistent" 5 .forward)
    ("Task not found: " ++ "Nonexistent") (by decide)
  exact ⟨h.1, h.2⟩


/-- C1 counterexample: on a successful `shift_task_dates`, the
`applyIntent` of `src/backend/src/lib/plan.ts` mutates the caller's plan:
after the call `plan.tasks` holds the shifted task, not the task the caller
passed in. -/
theorem applyIntent_mutates_counterexample :
    ((applyIntent "x" ⟨[⟨"t1", "Design", ⟨2024, 3, 10⟩, ⟨2024, 3, 20⟩, none, none⟩]⟩
        (.shift_task_dates "Design" 1 .forward)).1 =
      .ok ⟨[Change.update "t1" ⟨"t1", "Design", ⟨2024, 3, 10⟩, ⟨2024, 3, 20⟩, none, none⟩
        ⟨"t1", "Design", ⟨2024, 3, 11⟩, ⟨2024, 3, 21⟩, none, none⟩]⟩) ∧
    (applyIntent "x" ⟨[⟨"t1", "Design", ⟨2024, 3, 10⟩, ⟨2024, 3, 20⟩, none, none⟩]⟩
        (.shift_task_dates "Design" 1 .forward)).2 ≠
      ⟨[⟨"t1", "Design", ⟨2024, 3, 10⟩, ⟨2024, 3, 20⟩, none, none⟩]⟩ := by
  decide

/-- C1 (amended): on success the `plan.ts` `applyIntent` assigns the
projected next task list to `plan.tasks` and returns the diff, while the
`part_000` variant builds the same diff and leaves the caller's plan
unchanged; applying the diff is the separate `projectTasks` step. -/
theorem applyIntent_post_plan (freshSuffix : String) (plan : Plan) (intent : Intent)
    (diff : PlanDiff) (h : (applyIntent freshSuffix plan intent).1 = .ok diff) :
    (applyIntent freshSuffix plan intent).2 = ⟨projectTasks plan.tasks diff.changes⟩ ∧
    (applyIntentP0 freshSuffix plan intent).2 = plan := by
  unfold applyIntent applyIntentP0 at *
  rcases hc : applyIntentChanges freshSuffix plan.tasks intent with f | cs
  · rw [hc] at h
    simp at h
  · rw [hc] at h
    dsimp only at h
    injection h with h2
    subst h2
    exact ⟨rfl, rfl⟩

/-- C1 witness: the post-plan of the mutating variant on a concrete success
is the projected task list; the `part_000` variant returns the input plan. -/
theorem applyIntent_post_plan_witness :
    ((applyIntent "x" ⟨[⟨"t1", "Design", ⟨2024, 3, 10⟩, ⟨2024, 3, 20⟩, none, none⟩]⟩
        (.shift_task_dates "Design" 2 .forward)).1 =
      .ok ⟨[Change.update "t1" ⟨"t1", "Design", ⟨2024, 3, 10⟩, ⟨2024, 3, 20⟩, none, none⟩
        ⟨"t1", "Design", ⟨2024, 3, 12⟩, ⟨2024, 3, 22⟩, none, none⟩]⟩) ∧
    (applyIntent "x" ⟨[⟨"t1", "Design", ⟨2024, 3, 10⟩, ⟨2024, 3, 20⟩, none, none⟩]⟩
        (.shift_task_dates "Design" 2 .forward)).2 =
      ⟨projectTasks [⟨"t1", "Design", ⟨2024, 3, 10⟩, ⟨2024, 3, 20⟩, none, none⟩]
        [Change.update "t1" ⟨"t1", "Design", ⟨2024, 3, 10⟩, ⟨2024, 3, 20⟩, none, none⟩
          ⟨"t1", "Design", ⟨2024, 3, 12⟩, ⟨2024, 3, 22⟩, none, none⟩]⟩ ∧
    (applyIntentP0 "x" ⟨[⟨"t1", "Design", ⟨2024, 3, 10⟩, ⟨2024, 3, 20⟩, none, none⟩]⟩
        (.shift_task_dates "Design" 2 .forward)).2 =
      ⟨[⟨"t1", "Design", ⟨2024, 3, 10⟩, ⟨2024, 3, 20⟩, none, none⟩]⟩ := by
  refine ⟨by decide, ?_⟩
  have h := applyIntent_post_plan "x"
    ⟨[⟨"t1", "Design", ⟨2024, 3, 10⟩, ⟨2024, 3, 20⟩, none, none⟩]⟩
    (.shift_task_dates "Design" 2 .forward)
    ⟨[Change.update "t1" ⟨"t1", "Design", ⟨2024, 3, 10⟩, ⟨2024, 3, 20⟩, none, none⟩
      ⟨"t1", "Design", ⟨2024, 3, 12⟩, ⟨2024, 3, 22⟩, none, none⟩]⟩ (by decide)
  exact ⟨h.1, h.2⟩

/-- C3: `shift_task_dates` fails with `TargetNotFound` when no task name
matches the target case-insensitively; otherwise the diff is exactly one
update whose after-task is the resolved (first-matching) task with both
dates shifted by `+delta_days` (mode `forward`) or `-delta_days`
(mode `backward`). -/
theorem shift_task_dates_spec (freshSuffix target : String) (delta_days : Int)
    (mode : Mode) (plan : Plan) :
    ((∀ t ∈ plan.tasks, jsToLower t.name ≠ jsToLower target) →
      (applyIntent freshSuffix plan (.shift_task_dates target delta_days mode)).1 =
        .error ("Task not found: " ++ target)) ∧
    (∀ t, findByName plan.tasks target = some t → t.start.valid → t.end_.valid →
      (applyIntent freshSuffix plan (.shift_task_dates target delta_days mode)).1 =
        .ok ⟨[Change.update t.id t
          { t with
            start := addDays t.start
              (match mode with | .forward => delta_days | .backward => -delta_days),
            end_ := addDays t.end_
              (match mode with | .forward => delta_days | .backward => -delta_days) }]⟩) := by
  constructor
  · intro hno
    have hfind : findByName plan.tasks target = none := by
      unfold findByName
      rw [List.find?_eq_none]
      intro t ht
      simp only [beq_iff_eq]
      exact hno t ht
    simp only [applyIntent, applyIntentChanges, hfind]
  · intro t hfind hv1 hv2
    simp only [applyIntent, applyIntentChanges, hfind, shiftDates,
      if_pos (And.intro hv1 hv2)]

/-- C3 witness: mode=backward, delta_days=5 on "Design" spanning
2024-03-10..2024-03-20 resolves the task and yields exactly one update
spanning 2024-03-05..2024-03-15. -/
theorem shift_task_dates_spec_witness :
    (findByName [⟨"t1", "Design", ⟨2024, 3, 10⟩, ⟨2024, 3, 20⟩, none, none⟩] "Design" =
      some ⟨"t1", "Design", ⟨2024, 3, 10⟩, ⟨2024, 3, 20⟩, none, none⟩) ∧
    (applyIntent "x" ⟨[⟨"t1", "Design", ⟨2024, 3, 10⟩, ⟨2024, 3, 20⟩, none, none⟩]⟩
        (.shift_task_dates "Design" 5 .backward)).1 =
      .ok ⟨[Change.update "t1" ⟨"t1", "Design", ⟨2024, 3, 10⟩, ⟨2024, 3, 20⟩, none, none⟩
        ⟨"t1", "Design", ⟨2024, 3, 5⟩, ⟨2024, 3, 15⟩, none, none⟩]⟩ := by
  refine ⟨by decide, ?_⟩
  have h := (shift_task_dates_spec "x" "Design" 5 .backward
    ⟨[⟨"t1", "Design", ⟨2024, 3, 10⟩, ⟨2024, 3, 20⟩, none, none⟩]⟩).2
    ⟨"t1", "Design", ⟨2024, 3, 10⟩, ⟨2024, 3, 20⟩, none, none⟩
    (by decide) (by decide) (by decide)
  rw [h]
  decide

/-- C4: `move_milestone` on a resolved target with a malformed `to_date`
fails with the date-parsing error; on a well-formed `to_date` the diff is
exactly one update whose after-task starts at `to_date` and ends
`max 0 (durationDays target)` days later, the span computed from the
target's original dates. -/
theorem move_milestone_spec (freshSuffix target : String) (to_date : Date) (plan : Plan)
    (t : Task) (hfind : findByName plan.tasks target = some t) :
    (¬to_date.valid →
      (applyIntent freshSuffix plan (.move_milestone target to_date)).1 =
        .error "Invalid time value") ∧
    (t.start.valid → t.end_.valid → to_date.valid →
      (applyIntent freshSuffix plan (.move_milestone target to_date)).1 =
        .ok ⟨[Change.update t.id t
          { t with start := to_date,
                   end_ := addDays to_date (max 0 (durationDays t)) }]⟩) := by
  constructor
  · intro hbad
    have hneg : ¬(t.start.valid ∧ t.end_.valid ∧ to_date.valid) :=
      fun hall => hbad hall.2.2
    simp only [applyIntent, applyIntentChanges, hfind, if_neg hneg]
  · intro h1 h2 h3
    simp only [applyIntent, applyIntentChanges, hfind,
      if_pos (And.intro h1 (And.intro h2 h3))]

/-- C4 witness: a task spanning 2024-05-01..2024-05-04 (span 3) moved to
2024-06-01 yields an after-task spanning 2024-06-01..2024-06-04, and a
malformed `to_date` (month 13) raises the date-parsing error. -/
theorem move_milestone_spec_witness :
    (applyIntent "x" ⟨[⟨"t4", "Procurement", ⟨2024, 5, 1⟩, ⟨2024, 5, 4⟩, none, none⟩]⟩
        (.move_milestone "Procurement" ⟨2024, 6, 1⟩)).1 =
      .ok ⟨[Change.update "t4" ⟨"t4", "Procurement", ⟨2024, 5, 1⟩, ⟨2024, 5, 4⟩, none, none⟩
        ⟨"t4", "Procurement", ⟨2024, 6, 1⟩, ⟨2024, 6, 4⟩, none, none⟩]⟩ ∧
    (applyIntent "x" ⟨[⟨"t4", "Procurement", ⟨2024, 5, 1⟩, ⟨2024, 5, 4⟩, none, none⟩]⟩
        (.move_milestone "Procurement" ⟨2024, 13, 1⟩)).1 =
      .error "Invalid time value" := by
  constructor
  · have h := (move_milestone_spec "x" "Procurement" ⟨2024, 6, 1⟩
      ⟨[⟨"t4", "Procurement", ⟨2024, 5, 1⟩, ⟨2024, 5, 4⟩, none, none⟩]⟩
      ⟨"t4", "Procurement", ⟨2024, 5, 1⟩, ⟨2024, 5, 4⟩, none, none⟩ (by decide)).2
      (by decide) (by decide) (by decide)
    rw [h]
    decide
  · exact (move_milestone_spec "x" "Procurement" ⟨2024, 13, 1⟩
      ⟨[⟨"t4", "Procurement", ⟨2024, 5, 1⟩, ⟨2024, 5, 4⟩, none, none⟩]⟩
      ⟨"t4", "Procurement", ⟨2024, 5, 1⟩, ⟨2024, 5, 4⟩, none, none⟩ (by decide)).1
      (by decide)


/-- C5 counterexample: the code does not trim the `shift_phase` target.
With target `" design"` (leading space) and a task named "Design Review",
the claim's trimmed matching (trim " design" = "design") matches the task,
but `applyIntent` raises `TargetNotFound` because the untrimmed lowered
target `" design"` is not a substring of "design review". -/
theorem shift_phase_trim_counterexample :
    ((applyIntent "x" ⟨[⟨"t2", "Design Review", ⟨2024, 4, 1⟩, ⟨2024, 4, 5⟩, none, none⟩]⟩
        (.shift_phase " design" 2)).1 =
      .error ("No tasks matched phase: " ++ " design")) ∧
    jsIncludes (jsToLower "Design Review") (jsToLower "design") = true := by
  decide

/-- C5 (amended): the matched set is exactly the tasks whose name contains
the raw (untrimmed) target as a case-insensitive substring; if empty,
`applyIntent` fails with "no tasks matched phase"; otherwise the diff has
one update per matched task, in plan order, each shifted by `delta_days`. -/
theorem shift_phase_spec (freshSuffix target : String) (delta_days : Int) (plan : Plan) :
    (plan.tasks.filter (fun t => jsIncludes (jsToLower t.name) (jsToLower target)) = [] →
      (applyIntent freshSuffix plan (.shift_phase target delta_days)).1 =
        .error ("No tasks matched phase: " ++ target)) ∧
    (∀ matched,
      plan.tasks.filter (fun t => jsIncludes (jsToLower t.name) (jsToLower target)) = matched →
      matched ≠ [] → (∀ t ∈ matched, t.start.valid ∧ t.end_.valid) →
      (applyIntent freshSuffix plan (.shift_phase target delta_days)).1 =
        .ok ⟨matched.map (fun t => Change.update t.id t
          { t with start := addDays t.start delta_days,
                   end_ := addDays t.end_ delta_days })⟩) := by
  constructor
  · intro hemp
    simp only [applyIntent, applyIntentChanges, hemp]
    rfl
  · intro matched hm hne hval
    simp only [applyIntent, applyIntentChanges, hm]
    rcases matched with _ | ⟨t0, rest⟩
    · exact absurd rfl hne
    · rw [if_neg (by simp : ¬((t0 :: rest).isEmpty = true)),
        shiftAll_ok delta_days (t0 :: rest) hval]

/-- C5 witness: target "design" against tasks "Design Review", "UI Design",
"Procurement" produces exactly two updates, in plan order. -/
theorem shift_phase_spec_witness :
    ([⟨"t2", "Design Review", ⟨2024, 4, 1⟩, ⟨2024, 4, 5⟩, none, none⟩,
      ⟨"t3", "UI Design", ⟨2024, 4, 6⟩, ⟨2024, 4, 9⟩, none, none⟩,
      ⟨"t4", "Procurement", ⟨2024, 5, 1⟩, ⟨2024, 5, 4⟩, none, none⟩] : List Task).filter
        (fun t => jsIncludes (jsToLower t.name) (jsToLower "design")) =
      [⟨"t2", "Design Review", ⟨2024, 4, 1⟩, ⟨2024, 4, 5⟩, none, none⟩,
       ⟨"t3", "UI Design", ⟨2024, 4, 6⟩, ⟨2024, 4, 9⟩, none, none⟩] ∧
    (applyIntent "x" ⟨[⟨"t2", "Design Review", ⟨2024, 4, 1⟩, ⟨2024, 4, 5⟩, none, none⟩,
        ⟨"t3", "UI Design", ⟨2024, 4, 6⟩, ⟨2024, 4, 9⟩, none, none⟩,
        ⟨"t4", "Procurement", ⟨2024, 5, 1⟩, ⟨2024, 5, 4⟩, none, none⟩]⟩
        (.shift_phase "design" 2)).1 =
      .ok ⟨[Change.update "t2" ⟨"t2", "Design Review", ⟨2024, 4, 1⟩, ⟨2024, 4, 5⟩, none, none⟩
        ⟨"t2", "Design Review", ⟨2024, 4, 3⟩, ⟨2024, 4, 7⟩, none, none⟩,
        Change.update "t3" ⟨"t3", "UI Design", ⟨2024, 4, 6⟩, ⟨2024, 4, 9⟩, none, none⟩
        ⟨"t3", "UI Design", ⟨2024, 4, 8⟩, ⟨2024, 4, 11⟩, none, none⟩]⟩ := by
  refine ⟨by decide, ?_⟩
  have h := (shift_phase_spec "x" "design" 2
    ⟨[⟨"t2", "Design Review", ⟨2024, 4, 1⟩, ⟨2024, 4, 5⟩, none, none⟩,
      ⟨"t3", "UI Design", ⟨2024, 4, 6⟩, ⟨2024, 4, 9⟩, none, none⟩,
      ⟨"t4", "Procurement", ⟨2024, 5, 1⟩, ⟨2024, 5, 4⟩, none, none⟩]⟩).2
    [⟨"t2", "Design Review", ⟨2024, 4, 1⟩, ⟨2024, 4, 5⟩, none, none⟩,
     ⟨"t3", "UI Design", ⟨2024, 4, 6⟩, ⟨2024, 4, 9⟩, none, none⟩]
    (by decide) (by decide) (by decide)
  rw [h]
  decide

/-- C6 counterexample: `create_task` performs no check of the generated id
against existing ids.  When the `Math.random` draw is "abc1234" and the
plan already holds a task with id "t_abc1234", the created task's id
equals that existing id. -/
theorem create_task_collision_counterexample :
    ((applyIntent "abc1234" ⟨[⟨"t_abc1234", "Old", ⟨2024, 1, 1⟩, ⟨2024, 1, 2⟩, none, none⟩]⟩
        (.create_task "New" ⟨2024, 4, 1⟩ ⟨2024, 4, 10⟩ none none)).1 =
      .ok ⟨[Change.create ⟨"t_" ++ "abc1234", "New", ⟨2024, 4, 1⟩, ⟨2024, 4, 10⟩,
        none, none⟩]⟩) ∧
    (∃ t ∈ ([⟨"t_abc1234", "Old", ⟨2024, 1, 1⟩, ⟨2024, 1, 2⟩, none, none⟩] : List Task),
      t.id = "t_" ++ "abc1234") := by
  decide

/-- C6 (amended): `create_task` emits exactly one create record and no
update record; the created task carries exactly the given name, dates,
dependsOn and assignee (no default-filling, no validation), and its id is
`"t_" ++ <the Math.random draw>`; the id avoids existing ids only when the
draw does, as no collision check is performed. -/
theorem create_task_spec (freshSuffix name : String) (start end_ : Date)
    (dependsOn : Option (List String)) (assignee : Option String) (plan : Plan) :
    (applyIntent freshSuffix plan (.create_task name start end_ dependsOn assignee)).1 =
      .ok ⟨[Change.create ⟨"t_" ++ freshSuffix, name, start, end_, dependsOn, assignee⟩]⟩ :=
  rfl

/-- C9: every update record produced by a successful non-create intent
keeps id, name, dependsOn and assignee identical between its before-task
and after-task; only the dates differ. -/
theorem update_preserves_fields (freshSuffix : String) (plan : Plan) (intent : Intent)
    (diff : PlanDiff)
    (hact : (match intent with | .create_task _ _ _ _ _ => False | _ => True))
    (h : (applyIntent freshSuffix plan intent).1 = .ok diff) :
    ∀ c ∈ diff.changes, ∀ tid b a, c = Change.update tid b a →
      a.id = b.id ∧ a.name = b.name ∧ a.dependsOn = b.dependsOn ∧ a.assignee = b.assignee := by
  have hch : ∃ cs, applyIntentChanges freshSuffix plan.tasks intent = .ok cs ∧
      diff = ⟨cs⟩ := by
    unfold applyIntent at h
    rcases hc : applyIntentChanges freshSuffix plan.tasks intent with f | cs
    · rw [hc] at h
      simp at h
    · rw [hc] at h
      dsimp only at h
      injection h with h2
      exact ⟨cs, rfl, h2.symm⟩
  obtain ⟨cs, hcs, rfl⟩ := hch
  intro c hc tid b a hceq
  subst hceq
  cases intent with
  | create_task nm s e dep asg => exact hact.elim
  | shift_task_dates target delta mode =>
    simp only [applyIntentChanges] at hcs
    rcases hf : findByName plan.tasks target with _ | t
    · rw [hf] at hcs
      simp at hcs
    · rw [hf] at hcs
      dsimp only at hcs
      split at hcs
      · simp at hcs
      · rename_i after heq
        injection hcs with h3
        rw [← h3] at hc
        simp only [List.mem_singleton] at hc
        injection hc with e_tid e_b e_a
        subst e_b
        subst e_a
        simp only [shiftDates] at heq
        split at heq
        · injection heq with h4
          rw [← h4]
          exact ⟨rfl, rfl, rfl, rfl⟩
        · exact absurd heq (by simp)
  | extend_task target delta =>
    simp only [applyIntentChanges] at hcs
    rcases hf : findByName plan.tasks target with _ | t
    · rw [hf] at hcs
      simp at hcs
    · rw [hf] at hcs
      dsimp only at hcs
      split at hcs
      · injection hcs with h3
        rw [← h3] at hc
        simp only [List.mem_singleton] at hc
        injection hc with e_tid e_b e_a
        subst e_b
        subst e_a
        exact ⟨rfl, rfl, rfl, rfl⟩
      · simp at hcs
  | move_milestone target to_date =>
    simp only [applyIntentChanges] at hcs
    rcases hf : findByName plan.tasks target with _ | t
    · rw [hf] at hcs
      simp at hcs
    · rw [hf] at hcs
      dsimp only at hcs
      split at hcs
      · injection hcs with h3
        rw [← h3] at hc
        simp only [List.mem_singleton] at hc
        injection hc with e_tid e_b e_a
        subst e_b
        subst e_a
        exact ⟨rfl, rfl, rfl, rfl⟩
      · simp at hcs
  | shift_phase target delta =>
    simp only [applyIntentChanges] at hcs
    split at hcs
    · simp at hcs
    · have hshape := shiftAll_ok_inv _ _ _ hcs
      rw [hshape] at hc
      simp only [List.mem_map] at hc
      obtain ⟨t, ht, hceq2⟩ := hc
      injection hceq2 with e1 e2 e3
      subst e2
      rw [← e3]
      exact ⟨rfl, rfl, rfl, rfl⟩

/-- C9 witness: a successful `extend_task` produces an update whose before
and after agree on id, name, dependsOn and assignee. -/
theorem update_preserves_fields_witness :
    ((applyIntent "x" ⟨[⟨"t1", "Design", ⟨2024, 3, 10⟩, ⟨2024, 3, 20⟩, some ["t0"],
        some "amy"⟩]⟩ (.extend_task "Design" 3)).1 =
      .ok ⟨[Change.update "t1"
        ⟨"t1", "Design", ⟨2024, 3, 10⟩, ⟨2024, 3, 20⟩, some ["t0"], some "amy"⟩
        ⟨"t1", "Design", ⟨2024, 3, 10⟩, ⟨2024, 3, 23⟩, some ["t0"], some "amy"⟩]⟩) ∧
    (∀ c ∈ (⟨[Change.update "t1"
        ⟨"t1", "Design", ⟨2024, 3, 10⟩, ⟨2024, 3, 20⟩, some ["t0"], some "amy"⟩
        ⟨"t1", "Design", ⟨2024, 3, 10⟩, ⟨2024, 3, 23⟩, some ["t0"], some "amy"⟩]⟩ :
          PlanDiff).changes,
      ∀ tid b a, c = Change.update tid b a →
        a.id = b.id ∧ a.name = b.name ∧ a.dependsOn = b.dependsOn ∧
        a.assignee = b.assignee) :=
  ⟨by decide,
    update_preserves_fields "x"
      ⟨[⟨"t1", "Design", ⟨2024, 3, 10⟩, ⟨2024, 3, 20⟩, some ["t0"], some "amy"⟩]⟩
      (.extend_task "Design" 3) _ trivial (by decide)⟩

/-- C10: `shift_phase` with the empty-string target never raises
`TargetNotFound` on a non-empty plan: the empty string is a substring of
every name, so every task matches and the diff has exactly one update per
task, in plan order, each shifted by `delta_days` days. -/
theorem shift_phase_empty_target (freshSuffix : String) (delta_days : Int) (plan : Plan)
    (h1 : plan.tasks ≠ [])
    (h2 : ∀ t ∈ plan.tasks, t.start.valid ∧ t.end_.valid) :
    (applyIntent freshSuffix plan (.shift_phase "" delta_days)).1 =
      .ok ⟨plan.tasks.map (fun t => Change.update t.id t
        { t with start := addDays t.start delta_days,
                 end_ := addDays t.end_ delta_days })⟩ := by
  have hfilter : plan.tasks.filter
      (fun t => jsIncludes (jsToLower t.name) (jsToLower "")) = plan.tasks := by
    rw [List.filter_eq_self]
    intro a ha
    exact isInfixL_nil _
  have h := (shift_phase_spec freshSuffix "" delta_days plan).2 plan.tasks hfilter h1 h2
  exact h

/-- C10 witness: empty target on a two-task plan updates both tasks. -/
theorem shift_phase_empty_target_witness :
    (applyIntent "x" ⟨[⟨"t1", "Design", ⟨2024, 3, 10⟩, ⟨2024, 3, 20⟩, none, none⟩,
        ⟨"t4", "Procurement", ⟨2024, 5, 1⟩, ⟨2024, 5, 4⟩, none, none⟩]⟩
        (.shift_phase "" 4)).1 =
      .ok ⟨[Change.update "t1" ⟨"t1", "Design", ⟨2024, 3, 10⟩, ⟨2024, 3, 20⟩, none, none⟩
        ⟨"t1", "Design", ⟨2024, 3, 14⟩, ⟨2024, 3, 24⟩, none, none⟩,
        Change.update "t4" ⟨"t4", "Procurement", ⟨2024, 5, 1⟩, ⟨2024, 5, 4⟩, none, none⟩
        ⟨"t4", "Procurement", ⟨2024, 5, 5⟩, ⟨2024, 5, 8⟩, none, none⟩]⟩ := by
  have h := shift_phase_empty_target "x" 4
    ⟨[⟨"t1", "Design", ⟨2024, 3, 10⟩, ⟨2024, 3, 20⟩, none, none⟩,
      ⟨"t4", "Procurement", ⟨2024, 5, 1⟩, ⟨2024, 5, 4⟩, none, none⟩]⟩
    (by decide) (by decide)
  rw [h]
  decide

/-- C7: `shiftDates` on a task with well-formed dates is a copy of the task
whose start and end are each advanced by exactly `delta` calendar days:
advancing by 0 days is the identity and advancing by `j + 1` days is one
table-based calendar successor (correct month lengths and leap years) past
advancing by `j` days, for every integer `j`. -/
theorem shiftDates_shifts_by_days (T : Task) (k : Int)
    (h1 : T.start.valid) (h2 : T.end_.valid) :
    shiftDates T k = .ok { T with start := addDays T.start k,
                                  end_ := addDays T.end_ k } ∧
    addDays T.start 0 = T.start ∧ addDays T.end_ 0 = T.end_ ∧
    (∀ j : Int, addDays T.start (j + 1) = nextDay (addDays T.start j) ∧
      addDays T.end_ (j + 1) = nextDay (addDays T.end_ j)) := by
  refine ⟨?_, addDays_zero _ h1, addDays_zero _ h2,
    fun j => ⟨addDays_succ _ _, addDays_succ _ _⟩⟩
  simp only [shiftDates, if_pos (And.intro h1 h2)]

/-- C7 witness: Jan 31 2024 + 1 day is Feb 1 2024 and Feb 28 2024 + 1 day
is Feb 29 2024 (leap year). -/
theorem shiftDates_shifts_by_days_witness :
    (⟨"t7", "Kickoff", ⟨2024, 1, 31⟩, ⟨2024, 2, 28⟩, none, none⟩ : Task).start.valid ∧
    shiftDates ⟨"t7", "Kickoff", ⟨2024, 1, 31⟩, ⟨2024, 2, 28⟩, none, none⟩ 1 =
      .ok ⟨"t7", "Kickoff", ⟨2024, 2, 1⟩, ⟨2024, 2, 29⟩, none, none⟩ := by
  refine ⟨by decide, ?_⟩
  have h := (shiftDates_shifts_by_days
    ⟨"t7", "Kickoff", ⟨2024, 1, 31⟩, ⟨2024, 2, 28⟩, none, none⟩ 1
    (by decide) (by decide)).1
  rw [h]
  decide

/-- C8: on a task with well-formed dates, `shiftDates` by 0 days is the
identity, shifting by `k` then by `-k` restores the task exactly, and
shifting leaves the day-span between end and start unchanged. -/
theorem shiftDates_identity_roundtrip_span (T : Task) (k : Int)
    (h1 : T.start.valid) (h2 : T.end_.valid) :
    shiftDates T 0 = .ok T ∧
    (∀ T', shiftDates T k = .ok T' →
      shiftDates T' (-k) = .ok T ∧ durationDays T' = durationDays T) := by
  constructor
  · simp only [shiftDates, if_pos (And.intro h1 h2), addDays_zero _ h1, addDays_zero _ h2]
  · intro T' hT'
    simp only [shiftDates, if_pos (And.intro h1 h2), Except.ok.injEq] at hT'
    subst hT'
    constructor
    · simp only [shiftDates]
      rw [if_pos (And.intro (addDays_valid T.start k) (addDays_valid T.end_ k))]
      rw [addDays_neg_cancel T.start h1 k, addDays_neg_cancel T.end_ h2 k]
    · simp only [durationDays]
      rw [toRata_addDays, toRata_addDays]
      ring

/-- C8 witness: a concrete task shifted by 7 and back by -7 is restored,
and the span is unchanged. -/
theorem shiftDates_identity_roundtrip_span_witness :
    shiftDates ⟨"t8", "QA", ⟨2023, 12, 28⟩, ⟨2024, 1, 2⟩, none, none⟩ 0 =
      .ok ⟨"t8", "QA", ⟨2023, 12, 28⟩, ⟨2024, 1, 2⟩, none, none⟩ ∧
    shiftDates ⟨"t8", "QA", ⟨2024, 1, 4⟩, ⟨2024, 1, 9⟩, none, none⟩ (-7) =
      .ok ⟨"t8", "QA", ⟨2023, 12, 28⟩, ⟨2024, 1, 2⟩, none, none⟩ ∧
    durationDays ⟨"t8", "QA", ⟨2024, 1, 4⟩, ⟨2024, 1, 9⟩, none, none⟩ =
      durationDays ⟨"t8", "QA", ⟨2023, 12, 28⟩, ⟨2024, 1, 2⟩, none, none⟩ := by
  have h := shiftDates_identity_roundtrip_span
    ⟨"t8", "QA", ⟨2023, 12, 28⟩, ⟨2024, 1, 2⟩, none, none⟩ 7 (by decide) (by decide)
  have h2 := h.2 ⟨"t8", "QA", ⟨2024, 1, 4⟩, ⟨2024, 1, 9⟩, none, none⟩ (by
    rw [(shiftDates_shifts_by_days
      ⟨"t8", "QA", ⟨2023, 12, 28⟩, ⟨2024, 1, 2⟩, none, none⟩ 7 (by decide) (by decide)).1]
    decide)
  exact ⟨h.1, h2.1, h2.2⟩

end Flowka
